import Mathlib

/-!
Verification of the dotquery query engine (src/dotquery/core.py, dsl.py,
queryset.py) against its natural-language specification.

The embedding models Python JSON-like data as the mutually inductive types
`Value`/`ValueList`/`FieldList` (a dict is an association list without
duplicate keys, as produced by `json.loads` and `to_dict`), the expression
AST (`And`/`Or`/`Not`/`Condition`) as `Expression`, Python's comparison
operators (`operator.eq`, `operator.contains`, `operator.gt`, `operator.lt`
and the repo's `_re_match_op`) as total Lean functions into
`Except Unit Bool` (`.error` standing for a raised Python exception), and
the external `dotpath_x` path locator as an abstract parameter
`find : String → Value → Except Unit (List Value)`.

The only fuel-indexed recursions are the deserializer (whose recursion goes
through dictionary lookups) and the textual parsers; their public wrappers
supply a `sizeOf`/length bound and fuel-irrelevance lemmas recover clean
unfolding equations.  Every definition is computable by kernel reduction.
-/

namespace DotQuery

mutual

/-- A Python value as it appears in JSON documents: `None`, `bool`, `int`,
`str`, `list`, `dict` (string keys).  Floats are outside the model. -/
inductive Value where
  | null : Value
  | bool : Bool → Value
  | int : Int → Value
  | str : String → Value
  | arr : ValueList → Value
  | obj : FieldList → Value

/-- The elements of a Python list value. -/
inductive ValueList where
  | nil : ValueList
  | cons : Value → ValueList → ValueList

/-- The key/value entries of a Python dict value. -/
inductive FieldList where
  | nil : FieldList
  | cons : String → Value → FieldList → FieldList

end

/-- Lookup `d[k]` in a Python dict (first match). -/
def FieldList.find : FieldList → String → Option Value
  | .nil, _ => none
  | .cons k v rest, key => if k = key then some v else rest.find key

/-- Removal of a key from a Python dict, as performed by `d.pop(k)`. -/
def FieldList.eraseKey : FieldList → String → FieldList
  | .nil, _ => .nil
  | .cons k v rest, key =>
    if k = key then rest.eraseKey key else .cons k v (rest.eraseKey key)

/-- In-place update `d[k] = v` of an existing key (Python dict mutation as
seen by an alias of the dictionary). -/
def FieldList.set : FieldList → String → Value → FieldList
  | .nil, _, _ => .nil
  | .cons k v rest, key, w =>
    if k = key then .cons k w (rest.set key w) else .cons k v (rest.set key w)

/-- Number of entries of a dict. -/
def FieldList.length : FieldList → Nat
  | .nil => 0
  | .cons _ _ rest => rest.length + 1

/-- Python `any(f(x) for x in xs)` over a list value's elements. -/
def ValueList.any : ValueList → (Value → Bool) → Bool
  | .nil, _ => false
  | .cons x rest, f => f x || rest.any f

/-- Number of elements of a list value. -/
def ValueList.length : ValueList → Nat
  | .nil => 0
  | .cons _ rest => rest.length + 1

/-- Whether a key is present in a dict. -/
def FieldList.any : FieldList → (String → Value → Bool) → Bool
  | .nil, _ => false
  | .cons k v rest, f => f k v || rest.any f

/-- Lookup on a `Value` that is expected to be an object. -/
def findVal : Value → String → Option Value
  | .obj fields, key => fields.find key
  | _, _ => none

/-- Python `d.pop(k)`: the looked-up value together with the dictionary with the
key removed.  `none` when the key is absent (Python raises `KeyError`). -/
def popField (fields : FieldList) (key : String) :
    Option (Value × FieldList) :=
  match fields.find key with
  | none => none
  | some v => some (v, fields.eraseKey key)

mutual

/-- Computable structural size of a value (the auto-generated `sizeOf`
instance of a mutual inductive is not executable). -/
def Value.vsize : Value → Nat
  | .null => 1
  | .bool _ => 1
  | .int _ => 1
  | .str _ => 1
  | .arr xs => xs.lsize + 1
  | .obj fs => fs.fsize + 1

/-- Size of a list value's elements. -/
def ValueList.lsize : ValueList → Nat
  | .nil => 0
  | .cons x rest => x.vsize + rest.lsize

/-- Size of a dict value's entries. -/
def FieldList.fsize : FieldList → Nat
  | .nil => 0
  | .cons _ v rest => v.vsize + rest.fsize

end

/-! ### Python operator semantics

`operator.eq`, `operator.contains`, `operator.gt`, `operator.lt` applied to
JSON-like values, and the string conversion used by `_re_match_op`.  A
raised Python exception (`TypeError` etc.) is modelled as
`Except.error ()`. -/

/-- Python coerces `bool` to `int` in comparisons: `True == 1`. -/
def boolInt (b : Bool) : Int := if b then 1 else 0

mutual

/-- Python `==`: structural equality except that booleans compare equal to
the integers 0/1, and dict equality ignores entry order. -/
def pyEq : Value → Value → Bool
  | .null, .null => true
  | .bool x, .bool y => x == y
  | .bool x, .int n => boolInt x == n
  | .int m, .bool y => m == boolInt y
  | .int m, .int n => m == n
  | .str s, .str t => s == t
  | .arr xs, .arr ys => pyEqL xs ys
  | .obj xs, .obj ys => xs.length == ys.length && pyEqO xs ys
  | _, _ => false

/-- Python `==` on list elements, pointwise. -/
def pyEqL : ValueList → ValueList → Bool
  | .nil, .nil => true
  | .cons x xs, .cons y ys => pyEq x y && pyEqL xs ys
  | _, _ => false

/-- Each entry of the first dict is present (under `==`) in the second. -/
def pyEqO : FieldList → FieldList → Bool
  | .nil, _ => true
  | .cons k v rest, ys =>
    (match ys.find k with
     | some w => pyEq v w
     | none => false) && pyEqO rest ys

end

mutual

/-- Python three-way comparison: numbers (with bool coercion), strings, and
lists lexicographically; any other pairing raises `TypeError`
(`.error`). -/
def pyCmp : Value → Value → Except Unit Ordering
  | .int m, .int n => .ok (compare m n)
  | .int m, .bool y => .ok (compare m (boolInt y))
  | .bool x, .int n => .ok (compare (boolInt x) n)
  | .bool x, .bool y => .ok (compare (boolInt x) (boolInt y))
  | .str s, .str t => .ok (compare s t)
  | .arr xs, .arr ys => pyCmpL xs ys
  | _, _ => .error ()

/-- Lexicographic comparison of Python lists. -/
def pyCmpL : ValueList → ValueList → Except Unit Ordering
  | .nil, .nil => .ok .eq
  | .nil, .cons _ _ => .ok .lt
  | .cons _ _, .nil => .ok .gt
  | .cons x xs, .cons y ys =>
    match pyCmp x y with
    | .error e => .error e
    | .ok .eq => pyCmpL xs ys
    | .ok o => .ok o

end

/-- Python `operator.gt` — `a > b`. -/
def pyGt (a b : Value) : Except Unit Bool :=
  match pyCmp a b with
  | .error e => .error e
  | .ok o => .ok (o == .gt)

/-- Python `operator.lt` — `a < b`. -/
def pyLt (a b : Value) : Except Unit Bool :=
  match pyCmp a b with
  | .error e => .error e
  | .ok o => .ok (o == .lt)

/-- Python `operator.contains container needle` — `needle in container`:
list membership under `==`, substring test for strings, key membership for
dicts; non-containers raise `TypeError`. -/
def pyContains (container needle : Value) : Except Unit Bool :=
  match container with
  | .arr xs => .ok (xs.any (fun x => pyEq x needle))
  | .str s =>
    match needle with
    | .str t => .ok (decide (t.data <:+: s.data))
    | _ => .error ()
  | .obj fields => .ok (fields.any (fun k _ => pyEq (.str k) needle))
  | _ => .error ()

mutual

/-- Python `repr()` of a nested value (used for containers; string elements
print with single quotes, as in Python). -/
def pyRepr : Value → String
  | .null => "None"
  | .bool true => "True"
  | .bool false => "False"
  | .int n => toString n
  | .str s => "'" ++ s ++ "'"
  | .arr xs => "[" ++ pyReprL xs ++ "]"
  | .obj xs => "\x7b" ++ pyReprO xs ++ "\x7d"

/-- Comma-joined reprs of list elements. -/
def pyReprL : ValueList → String
  | .nil => ""
  | .cons x .nil => pyRepr x
  | .cons x rest => pyRepr x ++ ", " ++ pyReprL rest

/-- Comma-joined reprs of dict entries. -/
def pyReprO : FieldList → String
  | .nil => ""
  | .cons k v .nil => "'" ++ k ++ "': " ++ pyRepr v
  | .cons k v rest => "'" ++ k ++ "': " ++ pyRepr v ++ ", " ++ pyReprO rest

end

/-- Python `str()` of a value, as applied by `_re_match_op` to the matched
value before regular-expression matching. -/
def pyStr : Value → String
  | .null => "None"
  | .bool true => "True"
  | .bool false => "False"
  | .int n => toString n
  | .str s => s
  | .arr xs => pyRepr (.arr xs)
  | .obj xs => pyRepr (.obj xs)

/-! ### Regular expressions

A model of the fragment of Python's `re` used by the repository's
`_re_match_op`: literal characters, `.`, and postfix `*`.  `re.match`
anchors at the start of the string only; `re.fullmatch` and `re.search`
are modelled alongside for comparison.  Patterns using unsupported
metacharacters are treated as unparseable. -/

inductive Regex where
  | fail : Regex
  | eps : Regex
  | char : Char → Regex
  | dot : Regex
  | seq : Regex → Regex → Regex
  | alt : Regex → Regex → Regex
  | star : Regex → Regex

/-- Does the regex accept the empty string? -/
def Regex.nullable : Regex → Bool
  | .fail => false
  | .eps => true
  | .char _ => false
  | .dot => false
  | .seq a b => a.nullable && b.nullable
  | .alt a b => a.nullable || b.nullable
  | .star _ => true

/-- Brzozowski derivative of the regex by one character. -/
def Regex.deriv : Regex → Char → Regex
  | .fail, _ => .fail
  | .eps, _ => .fail
  | .char c, x => if x = c then .eps else .fail
  | .dot, _ => .eps
  | .seq a b, x =>
    if a.nullable then .alt (.seq (a.deriv x) b) (b.deriv x)
    else .seq (a.deriv x) b
  | .alt a b, x => .alt (a.deriv x) (b.deriv x)
  | .star a, x => .seq (a.deriv x) (.star a)

/-- Exact (whole-string) regex match. -/
def Regex.rmatch (r : Regex) : List Char → Bool
  | [] => r.nullable
  | c :: cs => (r.deriv c).rmatch cs

/-- Python `re.match` semantics: the regex must match at position 0, but
may cover any prefix of the string. -/
def reMatchB (r : Regex) (s : List Char) : Bool :=
  (List.range (s.length + 1)).any (fun k => r.rmatch (s.take k))

/-- Python `re.fullmatch` semantics: the regex covers the whole string. -/
def reFullmatchB (r : Regex) (s : List Char) : Bool :=
  r.rmatch s

/-- Python `re.search` semantics: the regex matches somewhere inside the
string. -/
def reSearchB (r : Regex) (s : List Char) : Bool :=
  (List.range (s.length + 1)).any (fun i => reMatchB r (s.drop i))

/-- The opening curly brace character. -/
def lbraceC : Char := Char.ofNat 123

/-- The closing curly brace character. -/
def rbraceC : Char := Char.ofNat 125

/-- Metacharacters of Python regular expressions that the model does not
support as literals. -/
def reMeta : List Char := ['|', '(', ')', '[', ']', '+', '?', '^', '$',
  '\\', lbraceC, rbraceC]

/-- Compile a pattern into a list of atoms (a literal or `.`, optionally
starred).  `none` models a `re.error` or an unsupported pattern. -/
def parseAtoms : List Char → Option (List Regex)
  | [] => some []
  | c :: '*' :: r2 =>
    if c = '*' ∨ c ∈ reMeta then none
    else
      (parseAtoms r2).map
        (fun l => Regex.star (if c = '.' then .dot else .char c) :: l)
  | c :: rest =>
    if c = '*' ∨ c ∈ reMeta then none
    else
      (parseAtoms rest).map
        (fun l => (if c = '.' then Regex.dot else Regex.char c) :: l)

/-- Compile a pattern string into a regex. -/
def parseRe (p : String) : Option Regex :=
  (parseAtoms p.data).map (fun l => l.foldr .seq .eps)

/-- The repository's `_re_match_op v r = bool(re.match(r, str(v)))`
(src/dotquery/core.py): prefix-anchored regex match against the string
form of the matched value.  A non-string or malformed pattern raises. -/
def reMatchOpFn (v pat : Value) : Except Unit Bool :=
  match pat with
  | .str p =>
    match parseRe p with
    | some r => .ok (reMatchB r (pyStr v).data)
    | none => .error ()
  | _ => .error ()

/-! ### The expression AST and its evaluation (src/dotquery/core.py)

`Condition` in the source stores the operator and the quantifier as Python
function values (`operator.eq`, …, `_re_match_op`; builtins `any`/`all`).
The embedding closes them into the inductive types `Op` and `Quant`;
`Op.pyName`/`Quant.pyName` give the `__name__` introspected by `to_dict`,
and `opApply` gives the binary predicate the function computes. -/

/-- The five operator functions a `Condition` can hold: `operator.eq`,
`operator.contains`, `operator.gt`, `operator.lt` and the module-level
`_re_match_op`. -/
inductive Op where
  | eq : Op
  | contains : Op
  | gt : Op
  | lt : Op
  | reMatchOp : Op

/-- The name `self.op.__name__`, as serialized by `Condition.to_dict`. -/
def Op.pyName : Op → String
  | .eq => "eq"
  | .contains => "contains"
  | .gt => "gt"
  | .lt => "lt"
  | .reMatchOp => "_re_match_op"

/-- The binary predicate of the operator, applied by `Condition.evaluate`
as `self.op(v, self.value)`. -/
def Op.apply : Op → Value → Value → Except Unit Bool
  | .eq, v, w => .ok (pyEq v w)
  | .contains, v, w => pyContains v w
  | .gt, v, w => pyGt v w
  | .lt, v, w => pyLt v w
  | .reMatchOp, v, w => reMatchOpFn v w

/-- The two quantifier functions a `Condition` can hold: the builtins
`any` and `all`. -/
inductive Quant where
  | anyQ : Quant
  | allQ : Quant

/-- The name `self.quantifier.__name__`, as serialized by `Condition.to_dict`. -/
def Quant.pyName : Quant → String
  | .anyQ => "any"
  | .allQ => "all"

/-- Python `any(p(x) for x in xs)`: lazily consumes the generator, so a
raised exception surfaces only if reached before a `True`. -/
def runAny (p : Value → Except Unit Bool) : List Value → Except Unit Bool
  | [] => .ok false
  | x :: xs =>
    match p x with
    | .error e => .error e
    | .ok true => .ok true
    | .ok false => runAny p xs

/-- Python `all(p(x) for x in xs)`, lazily consumed. -/
def runAll (p : Value → Except Unit Bool) : List Value → Except Unit Bool
  | [] => .ok true
  | x :: xs =>
    match p x with
    | .error e => .error e
    | .ok false => .ok false
    | .ok true => runAll p xs

/-- The reduction `self.quantifier(self.op(v, self.value) for v in values)`. -/
def runQuant : Quant → (Value → Except Unit Bool) → List Value →
    Except Unit Bool
  | .anyQ => runAny
  | .allQ => runAll

/-- The external `dotpath_x` locator, abstractly:
`list(DotPath(path).find(data))`, which may raise. -/
abbrev Locator := String → Value → Except Unit (List Value)

/-- The body of `Condition.evaluate` (src/dotquery/core.py lines 166-182):
everything inside the `try` block, with any raised exception — from the
locator or from a predicate application — converted to `False`, and an
empty match list short-circuited to `False`. -/
def condEval (found : Except Unit (List Value))
    (p : Value → Except Unit Bool) (q : Quant) : Bool :=
  match found with
  | .error _ => false
  | .ok [] => false
  | .ok (x :: xs) =>
    match runQuant q p (x :: xs) with
    | .error _ => false
    | .ok b => b

/-- The query AST: `And`, `Or`, `Not` and leaf `Condition` nodes
(src/dotquery/core.py). -/
inductive Expression where
  | and : Expression → Expression → Expression
  | or : Expression → Expression → Expression
  | not : Expression → Expression
  | condition : String → Op → Value → Quant → Expression

/-- Evaluation `Expression.evaluate(data)`: `And` is Python's short-circuiting `and`,
`Or` its `or`, `Not` is `not`; a `Condition` runs the locator and reduces
with its quantifier, treating failure or no match as `False`. -/
def Expression.evaluate (find : Locator) : Expression → Value → Bool
  | .and l r, d => l.evaluate find d && r.evaluate find d
  | .or l r, d => l.evaluate find d || r.evaluate find d
  | .not e, d => !(e.evaluate find d)
  | .condition path op value q, d =>
    condEval (find path d) (fun v => op.apply v value) q

/-- Instrumented evaluator: same control flow as `Expression.evaluate`
(Python's `and`/`or` evaluate their right operand only when needed), and
additionally records, in order, the paths of the `Condition.evaluate`
calls that were made. -/
def Expression.evalTrace (find : Locator) :
    Expression → Value → Bool × List String
  | .and l r, d =>
    let (bl, tl) := l.evalTrace find d
    if bl then
      let (br, tr) := r.evalTrace find d
      (br, tl ++ tr)
    else (false, tl)
  | .or l r, d =>
    let (bl, tl) := l.evalTrace find d
    if bl then (true, tl)
    else
      let (br, tr) := r.evalTrace find d
      (br, tl ++ tr)
  | .not e, d =>
    let (b, t) := e.evalTrace find d
    (!b, t)
  | .condition path op value q, d =>
    (condEval (find path d) (fun v => op.apply v value) q, [path])

/-! ### Serialization (`to_dict` / `from_dict`, src/dotquery/core.py)

`from_dict` is modelled as a state-passing function
`Value → Except DErr (Expression × Value)`: the second component is the
input dictionary as left behind by the Python code, which *mutates* its
argument via `data.pop("type")` on every node.  Its recursion goes through
dictionary lookups, so it is written with a fuel argument bounded by
`sizeOf`; fuel-irrelevance gives the clean unfolding equation
`from_dict_unfold`. -/

/-- Serialization `Expression.to_dict`: the tagged, JSON-compatible tree. -/
def Expression.to_dict : Expression → Value
  | .and l r =>
    .obj (.cons "type" (.str "and")
      (.cons "left" l.to_dict (.cons "right" r.to_dict .nil)))
  | .or l r =>
    .obj (.cons "type" (.str "or")
      (.cons "left" l.to_dict (.cons "right" r.to_dict .nil)))
  | .not e =>
    .obj (.cons "type" (.str "not") (.cons "expression" e.to_dict .nil))
  | .condition p op v q =>
    .obj (.cons "type" (.str "condition")
      (.cons "path" (.str p)
        (.cons "op" (.str op.pyName)
          (.cons "value" v (.cons "quantifier" (.str q.pyName) .nil)))))

/-- The tagged tree after `from_dict` has consumed it: every node has lost
its `"type"` entry (the other entries, and the condition payloads, are
untouched). -/
def toDictStrip : Expression → Value
  | .and l r =>
    .obj (.cons "left" (toDictStrip l) (.cons "right" (toDictStrip r) .nil))
  | .or l r =>
    .obj (.cons "left" (toDictStrip l) (.cons "right" (toDictStrip r) .nil))
  | .not e => .obj (.cons "expression" (toDictStrip e) .nil)
  | .condition p op v q =>
    .obj (.cons "path" (.str p)
      (.cons "op" (.str op.pyName)
        (.cons "value" v (.cons "quantifier" (.str q.pyName) .nil))))

/-- Deserialization failures: Python's `KeyError` (missing key),
`ValueError` (unknown type tag, operator or quantifier), `TypeError`
(value of an unexpected shape), `json.JSONDecodeError` (malformed wire
text).  `noFuel` is internal to the fuel encoding and unreachable from the
public wrappers. -/
inductive DErr where
  | keyError : String → DErr
  | valueError : DErr
  | typeError : DErr
  | jsonError : DErr
  | noFuel : DErr
  deriving DecidableEq

/-- The lookup `OP_MAP.get` of `Condition.from_dict`: the five accepted operator
names. -/
def opOfName (s : String) : Option Op :=
  if s = "eq" then some .eq
  else if s = "contains" then some .contains
  else if s = "gt" then some .gt
  else if s = "lt" then some .lt
  else if s = "_re_match_op" then some .reMatchOp
  else none

/-- The lookup `QUANTIFIER_MAP.get` of `Condition.from_dict`. -/
def quantOfName (s : String) : Option Quant :=
  if s = "any" then some .anyQ
  else if s = "all" then some .allQ
  else none

/-- Parsing `And.from_dict` / `Or.from_dict` given the dict with `"type"` already
popped: parse `data["left"]`, then `data["right"]`, mutating both nested
dictionaries in place. -/
def nodeBin (rec : Value → Except DErr (Expression × Value))
    (rest : FieldList) (mk : Expression → Expression → Expression) :
    Except DErr (Expression × Value) :=
  match rest.find "left" with
  | none => .error (.keyError "left")
  | some lv =>
    match rec lv with
    | .error e => .error e
    | .ok lpr =>
      match rest.find "right" with
      | none => .error (.keyError "right")
      | some rv =>
        match rec rv with
        | .error e => .error e
        | .ok rpr =>
          .ok (mk lpr.1 rpr.1,
            .obj ((rest.set "left" lpr.2).set "right" rpr.2))

/-- Parsing `Not.from_dict` given the dict with `"type"` already popped. -/
def nodeNot (rec : Value → Except DErr (Expression × Value))
    (rest : FieldList) : Except DErr (Expression × Value) :=
  match rest.find "expression" with
  | none => .error (.keyError "expression")
  | some ev =>
    match rec ev with
    | .error e => .error e
    | .ok epr => .ok (.not epr.1, .obj (rest.set "expression" epr.2))

/-- Parsing `Condition.from_dict` given the dict with `"type"` already popped:
look up `op` in `OP_MAP`, `quantifier` in `QUANTIFIER_MAP`, then read
`path` and `value`.  (The source stores `data["path"]` unchecked; the
embedding types paths as strings, which every serialized tree satisfies.) -/
def nodeCond (rest : FieldList) : Except DErr (Expression × Value) :=
  match rest.find "op" with
  | none => .error (.keyError "op")
  | some (.str opName) =>
    match opOfName opName with
    | none => .error .valueError
    | some op =>
      match rest.find "quantifier" with
      | none => .error (.keyError "quantifier")
      | some (.str qName) =>
        match quantOfName qName with
        | none => .error .valueError
        | some q =>
          match rest.find "path" with
          | none => .error (.keyError "path")
          | some (.str p) =>
            match rest.find "value" with
            | none => .error (.keyError "value")
            | some val => .ok (.condition p op val q, .obj rest)
          | some _ => .error .typeError
      | some _ => .error .valueError
  | some _ => .error .valueError

/-- One step of `Expression.from_dict`: `node_type = data.pop("type")`
(raising `KeyError` when absent, hence when the same dictionary is passed a
second time), then dispatch on the tag. -/
def fromDictStep (rec : Value → Except DErr (Expression × Value))
    (v : Value) : Except DErr (Expression × Value) :=
  match v with
  | .obj fields =>
    match popField fields "type" with
    | none => .error (.keyError "type")
    | some pr =>
      match pr.1 with
      | .str t =>
        if t = "and" then nodeBin rec pr.2 .and
        else if t = "or" then nodeBin rec pr.2 .or
        else if t = "not" then nodeNot rec pr.2
        else if t = "condition" then nodeCond pr.2
        else .error .valueError
      | _ => .error .valueError
  | _ => .error .typeError

/-- Fuel-indexed `from_dict`. -/
def fromDictF : Nat → Value → Except DErr (Expression × Value)
  | 0, _ => .error .noFuel
  | fuel + 1, v => fromDictStep (fromDictF fuel) v

/-- Deserialization `Expression.from_dict(data)`, state-passing: on success, the parsed
expression together with the input dictionary as the Python code leaves
it (each node's `"type"` entry popped). -/
def Expression.from_dict (v : Value) : Except DErr (Expression × Value) :=
  fromDictF v.vsize v

/-! ### A model of `json.loads` (Python standard library)

Used by the DSL parser's value-literal policy and by
`QuerySet.from_json`.  The model covers `null`, booleans, integers,
strings (with the single-character escapes), arrays and objects;
floating-point literals and `\u` escapes are outside the model and make
the parse fail. -/

/-- JSON whitespace. -/
def isWsC (c : Char) : Bool := c = ' ' || c = '\t' || c = '\n' || c = '\r'

/-- Skip leading whitespace. -/
def skipWs : List Char → List Char
  | [] => []
  | c :: rest => if isWsC c then skipWs rest else c :: rest

/-- Single-character JSON string escapes (`\uXXXX` is unmodelled). -/
def escChar (c : Char) : Option Char :=
  if c = 'n' then some '\n'
  else if c = 't' then some '\t'
  else if c = 'r' then some '\r'
  else if c = 'b' then some (Char.ofNat 8)
  else if c = 'f' then some (Char.ofNat 12)
  else if c = '"' ∨ c = '\\' ∨ c = '/' then some c
  else none

/-- Parse the remainder of a JSON string literal (after the opening
quote), returning the content and the rest of the input. -/
def parseJStr : List Char → Option (String × List Char)
  | [] => none
  | '"' :: rest => some ("", rest)
  | '\\' :: c :: rest =>
    match escChar c with
    | none => none
    | some ec =>
      (parseJStr rest).map (fun p => (String.singleton ec ++ p.1, p.2))
  | c :: rest =>
    (parseJStr rest).map (fun p => (String.singleton c ++ p.1, p.2))

/-- Split off a maximal run of decimal digits. -/
def takeDigits : List Char → List Char × List Char
  | [] => ([], [])
  | c :: rest =>
    if c.isDigit then
      let (d, r) := takeDigits rest
      (c :: d, r)
    else ([], c :: rest)

/-- Numeric value of a digit run. -/
def digitsToNat (ds : List Char) : Nat :=
  ds.foldl (fun acc c => acc * 10 + (c.toNat - 48)) 0

/-- Parse a JSON integer literal (leading-zero rule as in Python's
`json`); a following `.`, `e` or `E` would denote a float, which the
model rejects. -/
def parseJNum (cs : List Char) : Option (Value × List Char) :=
  let (neg, cs2) :=
    match cs with
    | '-' :: rest => (true, rest)
    | _ => (false, cs)
  match takeDigits cs2 with
  | ([], _) => none
  | (d :: ds, rest) =>
    if d = '0' ∧ ds ≠ [] then none
    else
      match rest with
      | '.' :: _ => none
      | 'e' :: _ => none
      | 'E' :: _ => none
      | _ =>
        let n : Int := Int.ofNat (digitsToNat (d :: ds))
        some (.int (if neg then -n else n), rest)

mutual

/-- Parse one JSON value (fuel-indexed). -/
def parseJF : Nat → List Char → Option (Value × List Char)
  | 0, _ => none
  | fuel + 1, cs =>
    match skipWs cs with
    | 'n' :: 'u' :: 'l' :: 'l' :: rest => some (.null, rest)
    | 't' :: 'r' :: 'u' :: 'e' :: rest => some (.bool true, rest)
    | 'f' :: 'a' :: 'l' :: 's' :: 'e' :: rest => some (.bool false, rest)
    | '"' :: rest => (parseJStr rest).map (fun p => (.str p.1, p.2))
    | '[' :: rest =>
      (match skipWs rest with
       | ']' :: r2 => some (.arr .nil, r2)
       | r2 => (parseJArrF fuel r2).map (fun p => (.arr p.1, p.2)))
    | c :: rest =>
      if c = lbraceC then
        match skipWs rest with
        | c2 :: r2 =>
          if c2 = rbraceC then some (.obj .nil, r2)
          else (parseJObjF fuel (c2 :: r2)).map (fun p => (.obj p.1, p.2))
        | [] => none
      else parseJNum (c :: rest)
    | [] => none

/-- Parse the comma-separated elements of a JSON array, up to and
including the closing bracket (fuel-indexed). -/
def parseJArrF : Nat → List Char → Option (ValueList × List Char)
  | 0, _ => none
  | fuel + 1, cs =>
    match parseJF fuel cs with
    | none => none
    | some (v, rest) =>
      match skipWs rest with
      | ',' :: r2 => (parseJArrF fuel r2).map (fun p => (.cons v p.1, p.2))
      | ']' :: r2 => some (.cons v .nil, r2)
      | _ => none

/-- Parse the comma-separated entries of a JSON object, up to and
including the closing brace (fuel-indexed). -/
def parseJObjF : Nat → List Char → Option (FieldList × List Char)
  | 0, _ => none
  | fuel + 1, cs =>
    match skipWs cs with
    | '"' :: rest =>
      match parseJStr rest with
      | none => none
      | some (k, r1) =>
        match skipWs r1 with
        | ':' :: r2 =>
          match parseJF fuel r2 with
          | none => none
          | some (v, r3) =>
            match skipWs r3 with
            | ',' :: r4 => (parseJObjF fuel r4).map (fun p => (.cons k v p.1, p.2))
            | c :: r4 =>
              if c = rbraceC then some (.cons k v .nil, r4) else none
            | [] => none
        | _ => none
    | _ => none

end

/-- Python `json.loads`: parse a complete JSON document (trailing
whitespace allowed, trailing junk rejected).  `none` models a raised
`json.JSONDecodeError`. -/
def jsonLoads (s : String) : Option Value :=
  match parseJF (2 * s.length + 2) s.data with
  | none => none
  | some (v, rest) => if skipWs rest = [] then some v else none

/-! ### The DSL parser (src/dotquery/dsl.py)

`DSLParser` holds the token list and a position; the embedding threads the
position explicitly and returns `Except` for `raise ValueError`.  The
factory functions of core.py (`equals`, `all_matches`, …) reduce to
building a `Condition` with the corresponding operator function and
quantifier, wrapped in a `Query`. -/

/-- A `Query` wraps the root expression (src/dotquery/core.py). -/
structure Query where
  expression : Expression

/-- The `OPERATORS`/`ALL_OPERATORS` tables of dsl.py: the DSL operator
word, mapped to the operator function the factory passes to
`Condition`. -/
def dslOpName (s : String) : Option Op :=
  if s = "equals" then some .eq
  else if s = "contains" then some .contains
  else if s = "greater" then some .gt
  else if s = "less" then some .lt
  else if s = "matches" then some .reMatchOp
  else none

/-- The peek `self.current_token()`. -/
def currentToken (tokens : List String) (pos : Nat) : Option String :=
  tokens.get? pos

/-- The rule `DSLParser.parse_condition`: optional quantifier word, operator word
(checked against `OPERATORS`), path token, value token; the value token is
parsed as JSON if possible, otherwise taken verbatim as a string. -/
def parse_condition (tokens : List String) (pos : Nat) :
    Except String (Query × Nat) :=
  let qp : Quant × Nat :=
    match currentToken tokens pos with
    | some "any" => (.anyQ, pos + 1)
    | some "all" => (.allQ, pos + 1)
    | _ => (.anyQ, pos)
  match currentToken tokens qp.2 with
  | none => .error "Unknown operator"
  | some opTok =>
    match dslOpName opTok with
    | none => .error "Unknown operator"
    | some op =>
      match currentToken tokens (qp.2 + 1) with
      | none => .error "requires a path argument"
      | some path =>
        match currentToken tokens (qp.2 + 2) with
        | none => .error "requires a value argument"
        | some valueStr =>
          let value := (jsonLoads valueStr).getD (.str valueStr)
          .ok (⟨.condition path op value qp.1⟩, qp.2 + 3)

mutual

/-- The rule `DSLParser.parse_expression` (fuel-indexed): a term, then a
left-associated chain of `or` terms. -/
def parse_expressionF : Nat → List String → Nat → Except String (Query × Nat)
  | 0, _, _ => .error "fuel"
  | fuel + 1, tokens, pos =>
    match parse_termF fuel tokens pos with
    | .error e => .error e
    | .ok (q, pos2) => parse_orLoopF fuel tokens pos2 q
  termination_by structural fuel _ _ => fuel

/-- The `while current_token() == "or"` loop of `parse_expression`. -/
def parse_orLoopF : Nat → List String → Nat → Query →
    Except String (Query × Nat)
  | 0, _, _, _ => .error "fuel"
  | fuel + 1, tokens, pos, acc =>
    if currentToken tokens pos = some "or" then
      match parse_termF fuel tokens (pos + 1) with
      | .error e => .error e
      | .ok (q2, pos2) =>
        parse_orLoopF fuel tokens pos2 ⟨.or acc.expression q2.expression⟩
    else .ok (acc, pos)
  termination_by structural fuel _ _ _ => fuel

/-- The rule `DSLParser.parse_term` (fuel-indexed): a factor, then a
left-associated chain of `and` factors. -/
def parse_termF : Nat → List String → Nat → Except String (Query × Nat)
  | 0, _, _ => .error "fuel"
  | fuel + 1, tokens, pos =>
    match parse_factorF fuel tokens pos with
    | .error e => .error e
    | .ok (q, pos2) => parse_andLoopF fuel tokens pos2 q
  termination_by structural fuel _ _ => fuel

/-- The `while current_token() == "and"` loop of `parse_term`. -/
def parse_andLoopF : Nat → List String → Nat → Query →
    Except String (Query × Nat)
  | 0, _, _, _ => .error "fuel"
  | fuel + 1, tokens, pos, acc =>
    if currentToken tokens pos = some "and" then
      match parse_factorF fuel tokens (pos + 1) with
      | .error e => .error e
      | .ok (q2, pos2) =>
        parse_andLoopF fuel tokens pos2 ⟨.and acc.expression q2.expression⟩
    else .ok (acc, pos)
  termination_by structural fuel _ _ _ => fuel

/-- The rule `DSLParser.parse_factor` (fuel-indexed): `not` factor, parenthesized
expression (raising on a missing `)`), or a leaf condition. -/
def parse_factorF : Nat → List String → Nat → Except String (Query × Nat)
  | 0, _, _ => .error "fuel"
  | fuel + 1, tokens, pos =>
    match currentToken tokens pos with
    | some "not" =>
      (match parse_factorF fuel tokens (pos + 1) with
       | .error e => .error e
       | .ok (q, pos2) => .ok (⟨.not q.expression⟩, pos2))
    | some "(" =>
      (match parse_expressionF fuel tokens (pos + 1) with
       | .error e => .error e
       | .ok (q, pos2) =>
         if currentToken tokens pos2 = some ")" then .ok (q, pos2 + 1)
         else .error "Mismatched parentheses: expected closing paren")
    | _ => parse_condition tokens pos
  termination_by structural fuel _ _ => fuel

end

/-- The entry point `DSLParser.parse`: reject an empty token stream, parse one expression,
reject trailing tokens.  The fuel bound dominates the recursion depth of
the concrete parses considered here. -/
def DSLParser.parse (tokens : List String) : Except String Query :=
  if tokens.isEmpty then .error "Query cannot be empty."
  else
    match parse_expressionF (4 * tokens.length + 4) tokens 0 with
    | .error e => .error e
    | .ok (q, pos) =>
      match currentToken tokens pos with
      | some _ => .error "Unexpected token at end of query"
      | none => .ok q

/-! ### QuerySet (src/dotquery/queryset.py) -/

/-- A `QuerySet` holds the root `Query` and the source descriptors
(`data["sources"]` is stored verbatim, whatever JSON value it is). -/
structure QuerySet where
  query : Query
  sources : Value

/-- Deserialization `QuerySet.from_json`: `json.loads`, then `data["query_ast"]` through
`Expression.from_dict`, then `data["sources"]` (in the source the
`sources` lookup happens in the constructor call, after `from_dict` has
succeeded). -/
def QuerySet.from_json (text : String) : Except DErr QuerySet :=
  match jsonLoads text with
  | none => .error .jsonError
  | some (.obj fields) =>
    (match fields.find "query_ast" with
     | none => .error (.keyError "query_ast")
     | some qa =>
       match Expression.from_dict qa with
       | .error e => .error e
       | .ok (e, _) =>
         match fields.find "sources" with
         | none => .error (.keyError "sources")
         | some s => .ok ⟨⟨e⟩, s⟩)
  | some _ => .error .typeError

/-- Did the Python expression evaluate without raising? -/
def errFree : Except Unit Bool → Bool
  | .ok _ => true
  | .error _ => false

/-- The serialized condition node with an arbitrary operator name in the
`"op"` slot (key order as produced by `Condition.to_dict`). -/
def condDict (p : String) (opName : String) (v : Value) (q : String) :
    Value :=
  .obj (.cons "type" (.str "condition")
    (.cons "path" (.str p)
      (.cons "op" (.str opName)
        (.cons "value" v (.cons "quantifier" (.str q) .nil)))))

/-- The `"type"` entry is gone from this node dictionary and, recursively,
from the nested `left`/`right`/`expression` node dictionaries that
deserialized to the sub-expressions. -/
def noNodeType : Expression → Value → Bool
  | .and l r, .obj fs =>
    (fs.find "type").isNone &&
      (match fs.find "left", fs.find "right" with
       | some lv, some rv => noNodeType l lv && noNodeType r rv
       | _, _ => false)
  | .or l r, .obj fs =>
    (fs.find "type").isNone &&
      (match fs.find "left", fs.find "right" with
       | some lv, some rv => noNodeType l lv && noNodeType r rv
       | _, _ => false)
  | .not e, .obj fs =>
    (fs.find "type").isNone &&
      (match fs.find "expression" with
       | some ev => noNodeType e ev
       | none => false)
  | .condition _ _ _ _, .obj fs => (fs.find "type").isNone
  | _, _ => false

/-! ## Theorems -/

theorem Value.vsize_pos (v : Value) : 0 < v.vsize := by
  cases v <;> simp [Value.vsize]

theorem FieldList.find_vsize_lt :
    ∀ {fields : FieldList} {key : String} {v : Value},
      fields.find key = some v → v.vsize < (Value.obj fields).vsize
  | .nil, key, v, h => by simp [FieldList.find] at h
  | .cons k w rest, key, v, h => by
    rw [FieldList.find] at h
    split at h
    · cases h
      simp only [Value.vsize, FieldList.fsize]
      omega
    · have := FieldList.find_vsize_lt h
      simp only [Value.vsize, FieldList.fsize] at this ⊢
      omega

theorem FieldList.eraseKey_fsize_le :
    ∀ (fields : FieldList) (key : String),
      (fields.eraseKey key).fsize ≤ fields.fsize
  | .nil, key => by simp [FieldList.eraseKey]
  | .cons k w rest, key => by
    rw [FieldList.eraseKey]
    have := FieldList.eraseKey_fsize_le rest key
    split
    · simp only [FieldList.fsize]; omega
    · simp only [FieldList.fsize]; omega

theorem popField_find_vsize_lt {fields rest : FieldList}
    {key k : String} {tv v : Value}
    (hpop : popField fields key = some (tv, rest))
    (h : rest.find k = some v) :
    v.vsize < (Value.obj fields).vsize := by
  rw [popField] at hpop
  split at hpop
  · cases hpop
  · rename_i w hw
    cases hpop
    have h1 := FieldList.find_vsize_lt h
    have h2 := FieldList.eraseKey_fsize_le fields key
    simp only [Value.vsize] at h1 ⊢
    omega

/-- The traced evaluator computes the same truth value as
`Expression.evaluate`. -/
theorem Expression.evalTrace_fst (find : Locator) :
    ∀ (e : Expression) (d : Value),
      (e.evalTrace find d).1 = e.evaluate find d
  | .and l r, d => by
    rw [Expression.evalTrace, Expression.evaluate]
    rw [← Expression.evalTrace_fst find l d]
    cases hl : (l.evalTrace find d) with
    | mk bl tl =>
      cases bl with
      | false => simp
      | true =>
        simp only [if_true]
        rw [← Expression.evalTrace_fst find r d]
        cases hr : (r.evalTrace find d) with
        | mk br tr => simp
  | .or l r, d => by
    rw [Expression.evalTrace, Expression.evaluate]
    rw [← Expression.evalTrace_fst find l d]
    cases hl : (l.evalTrace find d) with
    | mk bl tl =>
      cases bl with
      | true => simp
      | false =>
        simp only [Bool.false_eq_true, if_false]
        rw [← Expression.evalTrace_fst find r d]
        cases hr : (r.evalTrace find d) with
        | mk br tr => simp
  | .not e, d => by
    rw [Expression.evalTrace, Expression.evaluate]
    rw [← Expression.evalTrace_fst find e d]
  | .condition path op value q, d => rfl

theorem nodeBin_congr {f g : Value → Except DErr (Expression × Value)}
    {rest : FieldList} {mk : Expression → Expression → Expression}
    (h : ∀ k u, rest.find k = some u → f u = g u) :
    nodeBin f rest mk = nodeBin g rest mk := by
  rw [nodeBin, nodeBin]
  cases hl : rest.find "left" with
  | none => rfl
  | some lv =>
    simp only [h "left" lv hl]
    cases g lv with
    | error e => rfl
    | ok pr =>
      cases hr : rest.find "right" with
      | none => rfl
      | some rv => simp only [h "right" rv hr]

theorem nodeNot_congr {f g : Value → Except DErr (Expression × Value)}
    {rest : FieldList}
    (h : ∀ k u, rest.find k = some u → f u = g u) :
    nodeNot f rest = nodeNot g rest := by
  rw [nodeNot, nodeNot]
  cases he : rest.find "expression" with
  | none => rfl
  | some ev => simp only [h "expression" ev he]

theorem fromDictStep_congr {f g : Value → Except DErr (Expression × Value)}
    {v : Value} (h : ∀ u, u.vsize < v.vsize → f u = g u) :
    fromDictStep f v = fromDictStep g v := by
  cases v with
  | obj fields =>
    rw [fromDictStep, fromDictStep]
    cases hpop : popField fields "type" with
    | none => rfl
    | some pr =>
      obtain ⟨tv, rest⟩ := pr
      have key : ∀ k u, rest.find k = some u → f u = g u := fun k u hu =>
        h u (popField_find_vsize_lt hpop hu)
      cases tv <;> try rfl
      rename_i t
      by_cases h1 : t = "and"
      · simp only [h1, if_true]; exact nodeBin_congr key
      · by_cases h2 : t = "or"
        · simp only [h1, h2, if_false, if_true]; exact nodeBin_congr key
        · by_cases h3 : t = "not"
          · simp only [h1, h2, h3, if_false, if_true]; exact nodeNot_congr key
          · simp only [h1, h2, h3, if_false]
  | null => rfl
  | bool b => rfl
  | int n => rfl
  | str s => rfl
  | arr xs => rfl

theorem fromDictF_irrel :
    ∀ (n m : Nat) (v : Value), v.vsize ≤ n → v.vsize ≤ m →
      fromDictF n v = fromDictF m v
  | 0, _, v, hn, _ => absurd hn (by have := Value.vsize_pos v; omega)
  | _ + 1, 0, v, _, hm => absurd hm (by have := Value.vsize_pos v; omega)
  | n + 1, m + 1, v, hn, hm => by
    rw [fromDictF, fromDictF]
    apply fromDictStep_congr
    intro u hu
    have h1 : u.vsize ≤ n := by omega
    have e1 : fromDictF n u = fromDictF u.vsize u :=
      fromDictF_irrel n u.vsize u h1 le_rfl
    have e2 : fromDictF u.vsize u = fromDictF m u :=
      fromDictF_irrel u.vsize m u le_rfl (by omega)
    rw [e1, e2]
  termination_by n _ _ => n
  decreasing_by all_goals omega

/-- The clean unfolding equation of `Expression.from_dict`. -/
theorem from_dict_unfold (v : Value) :
    Expression.from_dict v = fromDictStep Expression.from_dict v := by
  rw [Expression.from_dict]
  obtain ⟨n, hn⟩ : ∃ n, v.vsize = n + 1 :=
    ⟨v.vsize - 1, by have := Value.vsize_pos v; omega⟩
  rw [hn, fromDictF]
  apply fromDictStep_congr
  intro u hu
  show fromDictF n u = Expression.from_dict u
  rw [Expression.from_dict]
  exact fromDictF_irrel n u.vsize u (by omega) le_rfl

/-! ### Association-list lemmas -/

theorem FieldList.find_eraseKey_self :
    ∀ (fs : FieldList) (k : String), (fs.eraseKey k).find k = none
  | .nil, k => rfl
  | .cons k1 v rest, k => by
    rw [FieldList.eraseKey]
    split
    · exact FieldList.find_eraseKey_self rest k
    · rename_i hne
      rw [FieldList.find, if_neg hne]
      exact FieldList.find_eraseKey_self rest k

theorem FieldList.find_set_ne :
    ∀ (fs : FieldList) (k k2 : String) (v : Value), k ≠ k2 →
      (fs.set k v).find k2 = fs.find k2
  | .nil, _, _, _, _ => rfl
  | .cons k1 w rest, k, k2, v, hne => by
    have ih := FieldList.find_set_ne rest k k2 v hne
    simp only [FieldList.set]
    split
    · rename_i h
      have h12 : k1 ≠ k2 := by rw [h]; exact hne
      simp only [FieldList.find, if_neg h12, ih]
    · by_cases h2 : k1 = k2
      · simp only [FieldList.find, if_pos h2]
      · simp only [FieldList.find, if_neg h2, ih]

theorem FieldList.find_set_self :
    ∀ (fs : FieldList) (k : String) (v w : Value),
      fs.find k = some w → (fs.set k v).find k = some v
  | .nil, k, v, w, h => by simp [FieldList.find] at h
  | .cons k1 u rest, k, v, w, h => by
    simp only [FieldList.set]
    split
    · rename_i hk
      simp only [FieldList.find, if_pos hk]
    · rename_i hk
      rw [FieldList.find, if_neg hk] at h
      simp only [FieldList.find, if_neg hk]
      exact FieldList.find_set_self rest k v w h

theorem popField_eq_some {fields : FieldList} {key : String} {tv : Value}
    {rest : FieldList} (h : popField fields key = some (tv, rest)) :
    fields.find key = some tv ∧ rest = fields.eraseKey key := by
  rw [popField] at h
  split at h
  · cases h
  · rename_i v hv
    cases h
    exact ⟨hv, rfl⟩

/-- A dictionary without a `"type"` key makes `from_dict` raise
`KeyError('type')` immediately. -/
theorem from_dict_obj_noType {fs : FieldList} (h : fs.find "type" = none) :
    Expression.from_dict (.obj fs) = .error (.keyError "type") := by
  rw [from_dict_unfold, fromDictStep, popField, h]

/-! ### Round trip -/

/-- Inversion: `Expression.from_dict` inverts `Expression.to_dict`, leaving behind the
serialized dictionary with every node's `"type"` entry popped. -/
theorem from_dict_to_dict : ∀ e : Expression,
    Expression.from_dict (Expression.to_dict e) = .ok (e, toDictStrip e)
  | .and l r => by
    rw [from_dict_unfold, Expression.to_dict, fromDictStep]
    simp only [popField, FieldList.find, FieldList.eraseKey, String.reduceEq, reduceIte]
    rw [nodeBin]
    simp only [FieldList.find, String.reduceEq, reduceIte]
    rw [from_dict_to_dict l, from_dict_to_dict r]
    simp only [FieldList.set, String.reduceEq, reduceIte]
    rfl
  | .or l r => by
    rw [from_dict_unfold, Expression.to_dict, fromDictStep]
    simp only [popField, FieldList.find, FieldList.eraseKey, String.reduceEq, reduceIte]
    rw [nodeBin]
    simp only [FieldList.find, String.reduceEq, reduceIte]
    rw [from_dict_to_dict l, from_dict_to_dict r]
    simp only [FieldList.set, String.reduceEq, reduceIte]
    rfl
  | .not e => by
    rw [from_dict_unfold, Expression.to_dict, fromDictStep]
    simp only [popField, FieldList.find, FieldList.eraseKey, String.reduceEq, reduceIte]
    rw [nodeNot]
    simp only [FieldList.find, String.reduceEq, reduceIte]
    rw [from_dict_to_dict e]
    simp only [FieldList.set, String.reduceEq, reduceIte]
    rfl
  | .condition p op v q => by
    rw [from_dict_unfold, Expression.to_dict, fromDictStep]
    simp only [popField, FieldList.find, FieldList.eraseKey, String.reduceEq, reduceIte]
    rw [nodeCond]
    simp only [FieldList.find, String.reduceEq, reduceIte]
    cases op <;> cases q <;> rfl

/-! ### Inversion of the deserializer's node parsers -/

theorem nodeBin_ok {rec : Value → Except DErr (Expression × Value)}
    {rest : FieldList} {mk : Expression → Expression → Expression}
    {e : Expression} {d' : Value}
    (h : nodeBin rec rest mk = .ok (e, d')) :
    ∃ lv l lv2 rv r rv2, rest.find "left" = some lv ∧
      rec lv = .ok (l, lv2) ∧ rest.find "right" = some rv ∧
      rec rv = .ok (r, rv2) ∧ e = mk l r ∧
      d' = .obj ((rest.set "left" lv2).set "right" rv2) := by
  rw [nodeBin] at h
  split at h
  · cases h
  · rename_i lv hl
    split at h
    · cases h
    · rename_i lpr hrec
      split at h
      · cases h
      · rename_i rv hr
        split at h
        · cases h
        · rename_i rpr hrec2
          cases h
          exact ⟨lv, lpr.1, lpr.2, rv, rpr.1, rpr.2, hl, hrec, hr,
            hrec2, rfl, rfl⟩

theorem nodeNot_ok {rec : Value → Except DErr (Expression × Value)}
    {rest : FieldList} {e : Expression} {d' : Value}
    (h : nodeNot rec rest = .ok (e, d')) :
    ∃ ev e1 ev2, rest.find "expression" = some ev ∧
      rec ev = .ok (e1, ev2) ∧ e = .not e1 ∧
      d' = .obj (rest.set "expression" ev2) := by
  rw [nodeNot] at h
  split at h
  · cases h
  · rename_i ev he
    split at h
    · cases h
    · rename_i epr hrec
      cases h
      exact ⟨ev, epr.1, epr.2, he, hrec, rfl, rfl⟩

theorem nodeCond_ok {rest : FieldList} {e : Expression} {d' : Value}
    (h : nodeCond rest = .ok (e, d')) :
    ∃ p op v q, e = .condition p op v q ∧ d' = .obj rest := by
  rw [nodeCond] at h
  iterate 6 (split at h <;> try cases h)
  exact ⟨_, _, _, _, rfl, rfl⟩

/-! ### Quantifier reduction lemmas -/

theorem runAny_ok_iff {p : Value → Except Unit Bool} :
    ∀ {l : List Value}, (∀ x ∈ l, errFree (p x) = true) →
      (runAny p l = .ok true ↔ ∃ x ∈ l, p x = .ok true)
  | [], _ => by simp [runAny]
  | x :: xs, h => by
    have hx := h x (List.mem_cons_self x xs)
    have hxs : ∀ y ∈ xs, errFree (p y) = true := fun y hy =>
      h y (List.mem_cons_of_mem x hy)
    rw [runAny]
    cases hp : p x with
    | error e => rw [hp] at hx; simp [errFree] at hx
    | ok b =>
      cases b with
      | true => simp [hp]
      | false =>
        have ih := runAny_ok_iff hxs
        simp only [ih, List.mem_cons]
        constructor
        · rintro ⟨y, hy, hpy⟩
          exact ⟨y, Or.inr hy, hpy⟩
        · rintro ⟨y, hy | hy, hpy⟩
          · rw [hy] at hpy; rw [hp] at hpy; cases hpy
          · exact ⟨y, hy, hpy⟩

theorem runAll_ok_iff {p : Value → Except Unit Bool} :
    ∀ {l : List Value}, (∀ x ∈ l, errFree (p x) = true) →
      (runAll p l = .ok true ↔ ∀ x ∈ l, p x = .ok true)
  | [], _ => by simp [runAll]
  | x :: xs, h => by
    have hx := h x (List.mem_cons_self x xs)
    have hxs : ∀ y ∈ xs, errFree (p y) = true := fun y hy =>
      h y (List.mem_cons_of_mem x hy)
    rw [runAll]
    cases hp : p x with
    | error e => rw [hp] at hx; simp [errFree] at hx
    | ok b =>
      cases b with
      | false =>
        simp only [List.mem_cons]
        constructor
        · intro hfalse; cases hfalse
        · intro hall
          have := hall x (Or.inl rfl)
          rw [hp] at this; cases this
      | true =>
        have ih := runAll_ok_iff hxs
        simp only [ih, List.mem_cons]
        constructor
        · intro hall y hy
          rcases hy with hy | hy
          · rw [hy, hp]
          · exact hall y hy
        · intro hall y hy
          exact hall y (Or.inr hy)

theorem condEval_cons_iff {x : Value} {xs : List Value}
    {p : Value → Except Unit Bool} {q : Quant} :
    condEval (.ok (x :: xs)) p q = true ↔
      runQuant q p (x :: xs) = .ok true := by
  rw [condEval]
  cases hq : runQuant q p (x :: xs) with
  | error e => simp
  | ok b => cases b <;> simp

/-! ### Prefix-match characterization of `re.match` -/

theorem reMatchB_iff {r : Regex} {s : List Char} :
    reMatchB r s = true ↔ ∃ p, p <+: s ∧ r.rmatch p = true := by
  rw [reMatchB, List.any_eq_true]
  constructor
  · rintro ⟨k, hk, hm⟩
    exact ⟨s.take k, List.take_prefix k s, hm⟩
  · rintro ⟨p, hp, hm⟩
    refine ⟨p.length, ?_, ?_⟩
    · rw [List.mem_range]
      have := hp.length_le
      omega
    · rw [List.prefix_iff_eq_take] at hp
      rw [← hp]
      exact hm

/-! ### The operator registries -/

theorem Op.pyName_mem (op : Op) :
    op.pyName ∈ ["eq", "contains", "gt", "lt", "_re_match_op"] := by
  cases op <;> simp [Op.pyName]

theorem opOfName_isSome_iff (s : String) :
    (opOfName s).isSome = true ↔
      s ∈ ["eq", "contains", "gt", "lt", "_re_match_op"] := by
  rw [opOfName]
  split_ifs with h1 h2 h3 h4 h5 <;> simp_all

/-! ### The mutation effect of `from_dict` -/

theorem from_dict_mutation_aux :
    ∀ (n : Nat) (d : Value), d.vsize ≤ n → ∀ (e : Expression) (d' : Value),
      Expression.from_dict d = .ok (e, d') →
      findVal d' "type" = none ∧ noNodeType e d' = true ∧
        Expression.from_dict d' = .error (.keyError "type")
  | 0, d, hn, e, d', h => absurd hn (by have := Value.vsize_pos d; omega)
  | n + 1, d, hn, e, d', h => by
    rw [from_dict_unfold] at h
    cases d with
    | obj fields =>
      rw [fromDictStep] at h
      split at h
      · cases h
      · rename_i pr hpop
        obtain ⟨tv, rest⟩ := pr
        obtain ⟨hfind, hrest⟩ := popField_eq_some hpop
        have hnt : rest.find "type" = none := by
          rw [hrest]; exact FieldList.find_eraseKey_self fields "type"
        have hsub : ∀ k u, rest.find k = some u → u.vsize ≤ n := by
          intro k u hu
          have h1 := popField_find_vsize_lt hpop hu
          omega
        split at h
        · -- the tag is a string
          split at h
          · -- "and"
            obtain ⟨lv, l, lv2, rv, r, rv2, hl, hrecl, hr, hrecr, he, hd'⟩ :=
              nodeBin_ok h
            obtain ⟨ihl1, ihl2, _⟩ :=
              from_dict_mutation_aux n lv (hsub _ _ hl) l lv2 hrecl
            obtain ⟨ihr1, ihr2, _⟩ :=
              from_dict_mutation_aux n rv (hsub _ _ hr) r rv2 hrecr
            subst he hd'
            have hfty : ((rest.set "left" lv2).set "right" rv2).find "type" =
                none := by
              rw [FieldList.find_set_ne _ "right" "type" _ (by decide),
                FieldList.find_set_ne _ "left" "type" _ (by decide)]
              exact hnt
            have hfl : ((rest.set "left" lv2).set "right" rv2).find "left" =
                some lv2 := by
              rw [FieldList.find_set_ne _ "right" "left" _ (by decide)]
              exact FieldList.find_set_self rest "left" lv2 lv hl
            have hfr : ((rest.set "left" lv2).set "right" rv2).find "right" =
                some rv2 := by
              refine FieldList.find_set_self _ "right" rv2 rv ?_
              rw [FieldList.find_set_ne _ "left" "right" _ (by decide)]
              exact hr
            refine ⟨hfty, ?_, from_dict_obj_noType hfty⟩
            rw [noNodeType, hfty, hfl, hfr]
            simp [ihl2, ihr2]
          · split at h
            · -- "or"
              obtain ⟨lv, l, lv2, rv, r, rv2, hl, hrecl, hr, hrecr, he, hd'⟩ :=
                nodeBin_ok h
              obtain ⟨ihl1, ihl2, _⟩ :=
                from_dict_mutation_aux n lv (hsub _ _ hl) l lv2 hrecl
              obtain ⟨ihr1, ihr2, _⟩ :=
                from_dict_mutation_aux n rv (hsub _ _ hr) r rv2 hrecr
              subst he hd'
              have hfty : ((rest.set "left" lv2).set "right" rv2).find "type" =
                  none := by
                rw [FieldList.find_set_ne _ "right" "type" _ (by decide),
                  FieldList.find_set_ne _ "left" "type" _ (by decide)]
                exact hnt
              have hfl : ((rest.set "left" lv2).set "right" rv2).find "left" =
                  some lv2 := by
                rw [FieldList.find_set_ne _ "right" "left" _ (by decide)]
                exact FieldList.find_set_self rest "left" lv2 lv hl
              have hfr : ((rest.set "left" lv2).set "right" rv2).find "right" =
                  some rv2 := by
                refine FieldList.find_set_self _ "right" rv2 rv ?_
                rw [FieldList.find_set_ne _ "left" "right" _ (by decide)]
                exact hr
              refine ⟨hfty, ?_, from_dict_obj_noType hfty⟩
              rw [noNodeType, hfty, hfl, hfr]
              simp [ihl2, ihr2]
            · split at h
              · -- "not"
                obtain ⟨ev, e1, ev2, he, hrece, heq, hd'⟩ := nodeNot_ok h
                obtain ⟨ihe1, ihe2, _⟩ :=
                  from_dict_mutation_aux n ev (hsub _ _ he) e1 ev2 hrece
                subst heq hd'
                have hfty : (rest.set "expression" ev2).find "type" =
                    none := by
                  rw [FieldList.find_set_ne _ "expression" "type" _
                    (by decide)]
                  exact hnt
                have hfe : (rest.set "expression" ev2).find "expression" =
                    some ev2 :=
                  FieldList.find_set_self rest "expression" ev2 ev he
                refine ⟨hfty, ?_, from_dict_obj_noType hfty⟩
                rw [noNodeType, hfty, hfe]
                simp [ihe2]
              · split at h
                · -- "condition"
                  obtain ⟨p, op, v, q, heq, hd'⟩ := nodeCond_ok h
                  subst heq hd'
                  refine ⟨hnt, ?_, from_dict_obj_noType hnt⟩
                  rw [noNodeType, hnt]
                  rfl
                · cases h
        · cases h
    | null => cases h
    | bool b => cases h
    | int n => cases h
    | str s => cases h
    | arr xs => cases h

/-! ## The claims -/

/-- C1 (counterexample): the claim that the serialized `"op"` field is one
of `eq`, `contains`, `gt`, `lt`, `matches` fails on the code: a `Condition`
built with the `matches` operator serializes its operator as
`"_re_match_op"` (the `__name__` of the module-level helper), which is not
in the claimed set, and deserialization rejects the name `"matches"` with a
`ValueError`. -/
theorem matches_op_serialized_name_counterexample :
    findVal (Expression.to_dict
        (.condition "a" .reMatchOp (.str "x") .anyQ)) "op" =
      some (.str "_re_match_op") ∧
    "_re_match_op" ∉ ["eq", "contains", "gt", "lt", "matches"] ∧
    Expression.from_dict (condDict "a" "matches" (.str "x") "any") =
      .error .valueError :=
  ⟨rfl, by decide, rfl⟩

/-- C1 (amended): the `"op"` field produced by serialization is the
operator function's `__name__` and is one of `eq`, `contains`, `gt`, `lt`,
`_re_match_op`; deserialization accepts exactly these five names; in
particular a `Condition` built with the `matches` operator serializes with
op `"_re_match_op"`. -/
theorem serialized_operator_names :
    (∀ (p : String) (op : Op) (v : Value) (q : Quant),
      findVal (Expression.to_dict (.condition p op v q)) "op" =
        some (.str op.pyName) ∧
      op.pyName ∈ ["eq", "contains", "gt", "lt", "_re_match_op"]) ∧
    (∀ s : String, (opOfName s).isSome = true ↔
      s ∈ ["eq", "contains", "gt", "lt", "_re_match_op"]) ∧
    Op.reMatchOp.pyName = "_re_match_op" :=
  ⟨fun _ op _ _ => ⟨rfl, Op.pyName_mem op⟩, opOfName_isSome_iff, rfl⟩

/-- C2: for every expression tree, `from_dict ∘ to_dict` succeeds, the
re-serialized tree is structurally equal to the original serialization,
and the deserialized tree evaluates identically to the original on every
document under every locator. -/
theorem serialize_deserialize_roundtrip :
    ∀ e : Expression, ∃ (e2 : Expression) (rest : Value),
      Expression.from_dict (Expression.to_dict e) = .ok (e2, rest) ∧
      Expression.to_dict e2 = Expression.to_dict e ∧
      ∀ (find : Locator) (d : Value),
        e2.evaluate find d = e.evaluate find d :=
  fun e => ⟨e, toDictStrip e, from_dict_to_dict e, rfl, fun _ _ => rfl⟩

/-- C3: `Condition.evaluate` is total: if the locator raises, or returns
an empty sequence, or the quantified predicate application raises (e.g. a
type-mismatched `gt`, as in the concrete instance comparing a string
against an integer), the condition evaluates to `false`; no exception
escapes (the embedding returns a `Bool` on every input). -/
theorem condition_evaluate_never_raises :
    (∀ (find : Locator) (p : String) (op : Op) (v : Value) (q : Quant)
        (d : Value),
      (find p d = .error () →
        Expression.evaluate find (.condition p op v q) d = false) ∧
      (find p d = .ok [] →
        Expression.evaluate find (.condition p op v q) d = false) ∧
      (∀ vs : List Value, find p d = .ok vs →
        runQuant q (fun x => op.apply x v) vs = .error () →
        Expression.evaluate find (.condition p op v q) d = false)) ∧
    Expression.evaluate (fun _ _ => .ok [.str "a"])
      (.condition "x" .gt (.int 0) .anyQ) .null = false := by
  refine ⟨fun find p op v q d => ⟨?_, ?_, ?_⟩, rfl⟩
  · intro h
    rw [Expression.evaluate, h]
    rfl
  · intro h
    rw [Expression.evaluate, h]
    rfl
  · intro vs hvs herr
    rw [Expression.evaluate, hvs]
    cases vs with
    | nil => rfl
    | cons x xs =>
      rw [condEval, herr]

/-- Witness for C3 at a concrete input: a locator that raises makes the
condition evaluate to `false`. -/
theorem condition_evaluate_never_raises_witness :
    ((fun (_ : String) (_ : Value) =>
        (.error () : Except Unit (List Value))) "p" .null = .error ()) ∧
    Expression.evaluate (fun _ _ => .error ())
      (.condition "p" .eq (.int 1) .anyQ) .null = false :=
  ⟨rfl,
    (condition_evaluate_never_raises.1 (fun _ _ => .error ()) "p" .eq
      (.int 1) .anyQ .null).1 rfl⟩

/-- C4: `And`/`Or` short-circuit.  In the instrumented evaluator (which
follows the Python control flow and records which conditions were
evaluated, in order): if the left operand of `And` is false, the result is
false and the trace is exactly the left operand's trace (the right operand
is never evaluated); otherwise the result is the right operand's value.
Symmetrically for `Or` with a true left operand. -/
theorem and_or_short_circuit :
    ∀ (find : Locator) (l r : Expression) (d : Value),
      (l.evaluate find d = false →
        Expression.evalTrace find (.and l r) d =
          (false, (l.evalTrace find d).2)) ∧
      (l.evaluate find d = true →
        Expression.evalTrace find (.and l r) d =
          (r.evaluate find d,
            (l.evalTrace find d).2 ++ (r.evalTrace find d).2)) ∧
      (l.evaluate find d = true →
        Expression.evalTrace find (.or l r) d =
          (true, (l.evalTrace find d).2)) ∧
      (l.evaluate find d = false →
        Expression.evalTrace find (.or l r) d =
          (r.evaluate find d,
            (l.evalTrace find d).2 ++ (r.evalTrace find d).2)) := by
  intro find l r d
  have hL := Expression.evalTrace_fst find l d
  have hR := Expression.evalTrace_fst find r d
  refine ⟨?_, ?_, ?_, ?_⟩ <;> intro hval
  · rw [Expression.evalTrace]
    cases hl : l.evalTrace find d with
    | mk bl tl =>
      have : bl = false := by rw [← hval, ← hL, hl]
      subst this
      rfl
  · rw [Expression.evalTrace]
    cases hl : l.evalTrace find d with
    | mk bl tl =>
      have : bl = true := by rw [← hval, ← hL, hl]
      subst this
      cases hr : r.evalTrace find d with
      | mk br tr =>
        have : br = r.evaluate find d := by rw [← hR, hr]
        subst this
        rfl
  · rw [Expression.evalTrace]
    cases hl : l.evalTrace find d with
    | mk bl tl =>
      have : bl = true := by rw [← hval, ← hL, hl]
      subst this
      rfl
  · rw [Expression.evalTrace]
    cases hl : l.evalTrace find d with
    | mk bl tl =>
      have : bl = false := by rw [← hval, ← hL, hl]
      subst this
      cases hr : r.evalTrace find d with
      | mk br tr =>
        have : br = r.evaluate find d := by rw [← hR, hr]
        subst this
        rfl

/-- Witness for C4 at a concrete input: with a locator that matches
nothing, the left condition is false and the `And` trace stops after the
left condition. -/
theorem and_or_short_circuit_witness :
    Expression.evaluate (fun _ _ => .ok [])
      (.condition "a" .eq (.int 1) .anyQ) .null = false ∧
    Expression.evalTrace (fun _ _ => .ok [])
      (.and (.condition "a" .eq (.int 1) .anyQ)
        (.condition "b" .eq (.int 1) .anyQ)) .null =
      (false, (Expression.evalTrace (fun _ _ => .ok [])
        (.condition "a" .eq (.int 1) .anyQ) .null).2) :=
  ⟨rfl,
    (and_or_short_circuit (fun _ _ => .ok [])
      (.condition "a" .eq (.int 1) .anyQ)
      (.condition "b" .eq (.int 1) .anyQ) .null).1 rfl⟩

/-- C5: over a non-empty matched sequence on which no predicate
application raises, quantifier `any` yields true iff the predicate holds
for at least one matched value and `all` iff it holds for every matched
value; concretely, over `[1,2,3]` with `gt 2`, `any` is true and `all` is
false. -/
theorem quantifier_any_all_semantics :
    (∀ (find : Locator) (p : String) (op : Op) (v : Value) (d : Value)
        (x : Value) (xs : List Value),
      find p d = .ok (x :: xs) →
      (∀ y ∈ x :: xs, errFree (op.apply y v) = true) →
      (Expression.evaluate find (.condition p op v .anyQ) d = true ↔
        ∃ y ∈ x :: xs, op.apply y v = .ok true) ∧
      (Expression.evaluate find (.condition p op v .allQ) d = true ↔
        ∀ y ∈ x :: xs, op.apply y v = .ok true)) ∧
    Expression.evaluate (fun _ _ => .ok [.int 1, .int 2, .int 3])
      (.condition "p" .gt (.int 2) .anyQ) .null = true ∧
    Expression.evaluate (fun _ _ => .ok [.int 1, .int 2, .int 3])
      (.condition "p" .gt (.int 2) .allQ) .null = false := by
  refine ⟨fun find p op v d x xs hfind herr => ⟨?_, ?_⟩, rfl, rfl⟩
  · rw [Expression.evaluate, hfind, condEval_cons_iff]
    exact runAny_ok_iff herr
  · rw [Expression.evaluate, hfind, condEval_cons_iff]
    exact runAll_ok_iff herr

/-- Witness for C5 at the concrete input `[1,2,3]`, `gt 2`. -/
theorem quantifier_any_all_semantics_witness :
    (∀ y ∈ [Value.int 1, Value.int 2, Value.int 3],
      errFree (Op.gt.apply y (.int 2)) = true) ∧
    (Expression.evaluate (fun _ _ => .ok [.int 1, .int 2, .int 3])
        (.condition "p" .gt (.int 2) .anyQ) .null = true ↔
      ∃ y ∈ [Value.int 1, Value.int 2, Value.int 3],
        Op.gt.apply y (.int 2) = .ok true) :=
  ⟨by decide,
    (quantifier_any_all_semantics.1 (fun _ _ => .ok [.int 1, .int 2, .int 3])
      "p" .gt (.int 2) .null (.int 1) [.int 2, .int 3] rfl (by decide)).1⟩

/-- C6: after the path, the value token is parsed as JSON when possible
and otherwise taken verbatim as a string; the token sequence
`["equals", "a.b", "1"]` parses to a `Condition` with path `"a.b"`,
operator `eq`, the numeric value `1`, and the default quantifier `any`. -/
theorem dsl_value_literal_policy :
    (∀ (p t : String),
      parse_condition ["equals", p, t] 0 =
        .ok (⟨.condition p .eq ((jsonLoads t).getD (.str t)) .anyQ⟩, 3)) ∧
    DSLParser.parse ["equals", "a.b", "1"] =
      .ok ⟨.condition "a.b" .eq (.int 1) .anyQ⟩ :=
  ⟨fun _ _ => rfl, rfl⟩

/-- C7: `matches` applies the value as a regular expression anchored at
the start of the string form of the matched value: it holds exactly when
some prefix of the string matches the regex.  Concretely, pattern `"ab"`
matches `"abc"` despite the trailing character (where a full match fails),
and pattern `"b"` does not match `"ab"` (where a substring search would
succeed). -/
theorem matches_prefix_anchored :
    (∀ (v : Value) (pat : String) (r : Regex), parseRe pat = some r →
      (reMatchOpFn v (.str pat) = .ok true ↔
        ∃ p, p <+: (pyStr v).data ∧ r.rmatch p = true)) ∧
    reMatchOpFn (.str "abc") (.str "ab") = .ok true ∧
    reFullmatchB (Regex.seq (.char 'a') (.seq (.char 'b') .eps))
      "abc".data = false ∧
    reMatchOpFn (.str "ab") (.str "b") = .ok false ∧
    reSearchB (Regex.seq (.char 'b') .eps) "ab".data = true := by
  refine ⟨fun v pat r hr => ?_, rfl, rfl, rfl, rfl⟩
  simp only [reMatchOpFn, hr, Except.ok.injEq]
  exact reMatchB_iff

/-- Witness for C7 at the concrete pattern `"ab"` and value `"abc"`. -/
theorem matches_prefix_anchored_witness :
    parseRe "ab" = some (Regex.seq (.char 'a') (.seq (.char 'b') .eps)) ∧
    (reMatchOpFn (.str "abc") (.str "ab") = .ok true ↔
      ∃ p, p <+: (pyStr (.str "abc")).data ∧
        (Regex.seq (.char 'a') (.seq (.char 'b') .eps)).rmatch p = true) :=
  ⟨rfl, matches_prefix_anchored.1 (.str "abc") "ab" _ rfl⟩

/-- C8: parsing fails with an error (producing no query) on an empty
token stream, a missing value token after the path, an unknown operator
token, a missing closing parenthesis, and trailing tokens after a
complete expression. -/
theorem dsl_parse_fatal_errors :
    DSLParser.parse [] = .error "Query cannot be empty." ∧
    (∃ msg, DSLParser.parse ["equals", "a.b"] = .error msg) ∧
    (∃ msg, DSLParser.parse ["frobnicate", "a", "1"] = .error msg) ∧
    (∃ msg, DSLParser.parse ["(", "equals", "a.b", "1"] = .error msg) ∧
    (∃ msg, DSLParser.parse ["equals", "a.b", "1", ")"] = .error msg) :=
  ⟨rfl, ⟨_, rfl⟩, ⟨_, rfl⟩, ⟨_, rfl⟩, ⟨_, rfl⟩⟩

/-- C9: `QuerySet.from_json` fails when the text is not valid JSON, when
the decoded object lacks `"query_ast"`, and when it lacks `"sources"`;
when both keys are present and the query tree is a serialized expression,
it succeeds. -/
theorem from_json_requires_keys :
    (∀ text : String, jsonLoads text = none →
      QuerySet.from_json text = .error .jsonError) ∧
    (∀ (text : String) (fields : FieldList),
      jsonLoads text = some (.obj fields) →
      fields.find "query_ast" = none →
      QuerySet.from_json text = .error (.keyError "query_ast")) ∧
    (∀ (text : String) (fields : FieldList) (qa : Value),
      jsonLoads text = some (.obj fields) →
      fields.find "query_ast" = some qa →
      fields.find "sources" = none →
      ∃ err, QuerySet.from_json text = .error err) ∧
    (∀ (text : String) (fields : FieldList) (e : Expression) (s : Value),
      jsonLoads text = some (.obj fields) →
      fields.find "query_ast" = some (Expression.to_dict e) →
      fields.find "sources" = some s →
      QuerySet.from_json text = .ok ⟨⟨e⟩, s⟩) := by
  refine ⟨?_, ?_, ?_, ?_⟩
  · intro text h
    rw [QuerySet.from_json, h]
  · intro text fields h hq
    rw [QuerySet.from_json, h]
    simp only [hq]
  · intro text fields qa h hq hs
    rw [QuerySet.from_json, h]
    simp only [hq]
    cases hfd : Expression.from_dict qa with
    | error err => exact ⟨err, rfl⟩
    | ok pr => exact ⟨.keyError "sources", by simp [hs]⟩
  · intro text fields e s h hq hs
    rw [QuerySet.from_json, h]
    simp only [hq, from_dict_to_dict e, hs]

/-- Witness for C9 on a concrete wire text with both keys present. -/
theorem from_json_requires_keys_witness :
    QuerySet.from_json
      "\x7b\"query_ast\": \x7b\"type\": \"condition\", \"path\": \"a.b\", \"op\": \"eq\", \"value\": 1, \"quantifier\": \"any\"\x7d, \"sources\": [\"d.json\"]\x7d" =
      .ok ⟨⟨.condition "a.b" .eq (.int 1) .anyQ⟩,
        .arr (.cons (.str "d.json") .nil)⟩ :=
  from_json_requires_keys.2.2.2
    "\x7b\"query_ast\": \x7b\"type\": \"condition\", \"path\": \"a.b\", \"op\": \"eq\", \"value\": 1, \"quantifier\": \"any\"\x7d, \"sources\": [\"d.json\"]\x7d"
    (.cons "query_ast"
      (.obj (.cons "type" (.str "condition")
        (.cons "path" (.str "a.b")
          (.cons "op" (.str "eq")
            (.cons "value" (.int 1)
              (.cons "quantifier" (.str "any") .nil))))))
      (.cons "sources" (.arr (.cons (.str "d.json") .nil)) .nil))
    (.condition "a.b" .eq (.int 1) .anyQ)
    (.arr (.cons (.str "d.json") .nil)) rfl rfl rfl

/-- C10: a successful `Expression.from_dict` pops the `"type"` entry from
its input dictionary and from every nested node dictionary, so running
`from_dict` a second time on the dictionary object it left behind fails
with `KeyError('type')`. -/
theorem from_dict_mutates_input :
    ∀ (d : Value) (e : Expression) (d' : Value),
      Expression.from_dict d = .ok (e, d') →
      findVal d' "type" = none ∧ noNodeType e d' = true ∧
        Expression.from_dict d' = .error (.keyError "type") :=
  fun d => from_dict_mutation_aux d.vsize d le_rfl

/-- Witness for C10 on a concrete two-node tree. -/
theorem from_dict_mutates_input_witness :
    Expression.from_dict (Expression.to_dict
      (.and (.condition "a" .eq (.int 1) .anyQ)
        (.condition "b" .eq (.int 2) .allQ))) =
      .ok (.and (.condition "a" .eq (.int 1) .anyQ)
        (.condition "b" .eq (.int 2) .allQ),
        toDictStrip (.and (.condition "a" .eq (.int 1) .anyQ)
          (.condition "b" .eq (.int 2) .allQ))) ∧
    Expression.from_dict (toDictStrip
      (.and (.condition "a" .eq (.int 1) .anyQ)
        (.condition "b" .eq (.int 2) .allQ))) =
      .error (.keyError "type") :=
  ⟨rfl,
    (from_dict_mutates_input
      (Expression.to_dict (.and (.condition "a" .eq (.int 1) .anyQ)
        (.condition "b" .eq (.int 2) .allQ)))
      (.and (.condition "a" .eq (.int 1) .anyQ)
        (.condition "b" .eq (.int 2) .allQ))
      (toDictStrip (.and (.condition "a" .eq (.int 1) .anyQ)
        (.condition "b" .eq (.int 2) .allQ))) rfl).2.2⟩

end DotQuery
